import Mathlib

/-!
Verification of the auto-memory filter (src/functions/auto-memory.py) against its
natural-language specification.  The Python module is shallowly embedded: JSON
values are the inductive `JValue`, Python strings are Lean `String` (a list of
code points, matching CPython's sequence-of-code-points semantics), the host's
memory storage (an external system, specified in section 6 of the spec) is a
small state record `Store` accessed through a record of possibly-raising
operations `StorageApi`, and the two LLM completion calls are abstracted as an
environment `Env` carrying their (possibly failing) parsed results.
Exceptions are modelled with `Except Unit`.
-/

/-- JSON values, the result of `json.loads` on a model response. -/
inductive JValue where
  | null : JValue
  | bool : Bool → JValue
  | num : Int → JValue
  | str : String → JValue
  | arr : List JValue → JValue
  | obj : List (String × JValue) → JValue

/-- Truthiness of an optional Python string (`None` and `""` are falsy). -/
def optTruthy : Option String → Bool
  | none => false
  | some s => !(s == "")

/-- Python `str.split(sep)` core for a one-character separator, on code points.
Auxiliary: returns the first segment and the remaining segments. -/
def splitCharAux (c : Char) : List Char → List Char × List (List Char)
  | [] => ([], [])
  | a :: rest =>
    let r := splitCharAux c rest
    if a = c then ([], r.1 :: r.2) else (a :: r.1, r.2)

/-- Python `str.split(sep)` for a one-character separator (both uses in
`_parse_memory_tags` split on a single character, `"]"` and `","`). -/
def splitChar (c : Char) (l : List Char) : List (List Char) :=
  (splitCharAux c l).1 :: (splitCharAux c l).2

/-- Python `str.replace(pat, rep)`: leftmost, non-overlapping replacement of
every occurrence.  Fueled recursion so the definition is structural and hence
evaluable by the kernel; `replaceAll` supplies sufficient fuel. -/
def replaceAllGo (pat rep : List Char) : Nat → List Char → List Char
  | _, [] => []
  | 0, s => s
  | fuel + 1, a :: rest =>
    if pat.isPrefixOf (a :: rest) ∧ pat ≠ [] then
      rep ++ replaceAllGo pat rep fuel (List.drop (pat.length - 1) rest)
    else
      a :: replaceAllGo pat rep fuel rest

/-- Python `str.replace(pat, rep)` for a non-empty pattern. -/
def replaceAll (pat rep s : List Char) : List Char :=
  replaceAllGo pat rep s.length s

/-- Python `str.strip()` (whitespace stripping on both ends; modelled with
ASCII whitespace, which covers every character these claims exercise). -/
def pyStripCore (s : List Char) : List Char :=
  ((s.dropWhile Char.isWhitespace).reverse.dropWhile Char.isWhitespace).reverse

/-- Python `str.lower()` on code points. -/
def pyLowerCore (s : List Char) : List Char := s.map Char.toLower

/-- Python `sep.join(parts)`. -/
def joinSep (sep : List Char) : List (List Char) → List Char
  | [] => []
  | [t] => t
  | t :: t' :: ts => t ++ sep ++ joinSep sep (t' :: ts)

/-- Content produced by `Filter._format_memory_content` when tags are present:
`f"[Tags: \x7b', '.join(tags)\x7d] \x7boperation.content\x7d"`. -/
def fmtCore (tags : List (List Char)) (content : List Char) : List Char :=
  "[Tags: ".data ++ joinSep ", ".data tags ++ "] ".data ++ content

/-- Core of `Filter._parse_memory_tags` on code points: when `"[Tags:"` occurs
in the content, take the part before the first `"]"`, delete every `"[Tags:"`,
split on `","` and strip-then-lower each piece; otherwise no tags. -/
def parseCore (content : List Char) : List (List Char) :=
  if "[Tags:".data <:+: content then
    (splitChar ',' (replaceAll "[Tags:".data [] ((splitChar ']' content).headD []))).map
      (fun t => pyLowerCore (pyStripCore t))
  else []

/-- Embeds `Filter._parse_memory_tags`. -/
def parse_memory_tags (content : String) : List String :=
  (parseCore content.data).map String.mk

/-- Memory-operation kinds (the closed `Literal` enumeration of the source). -/
inductive OpKind where
  | NEW : OpKind
  | UPDATE : OpKind
  | DELETE : OpKind
deriving DecidableEq

/-- Embeds the pydantic model `MemoryOperation`. -/
structure MemoryOperation where
  operation : OpKind
  id : Option String
  content : Option String
  tags : List String
deriving DecidableEq

/-- Python exception classes distinguished by `process_memories`: pydantic
validation failures are `ValueError` (caught per item), anything else —
e.g. `TypeError` from unpacking a non-mapping — is not. -/
inductive ConstructError where
  | valueError : ConstructError
  | typeError : ConstructError
deriving DecidableEq

/-- Embeds `MemoryOperation.validate_fields` (the `model_validator`): `UPDATE`
and `DELETE` require a truthy `id`, `NEW` and `UPDATE` require truthy
`content`; `not self.id` is true for both `None` and `""`. -/
def MemoryOperation.validate_fields (m : MemoryOperation) : Except ConstructError MemoryOperation :=
  if (m.operation = OpKind.UPDATE ∨ m.operation = OpKind.DELETE) ∧ optTruthy m.id = false then
    Except.error ConstructError.valueError
  else if (m.operation = OpKind.NEW ∨ m.operation = OpKind.UPDATE) ∧ optTruthy m.content = false then
    Except.error ConstructError.valueError
  else Except.ok m

/-- Field parsing for `MemoryOperation(**d)`: an `Optional[str]` field accepts
a missing key, `null` or a string, and rejects other JSON types (pydantic v2
does not coerce); `tags : List[str]` accepts a missing key or an array of
strings. -/
def parseOptStrField (fields : List (String × JValue)) (key : String) :
    Except ConstructError (Option String) :=
  match fields.lookup key with
  | none => Except.ok none
  | some JValue.null => Except.ok none
  | some (JValue.str s) => Except.ok (some s)
  | some _ => Except.error ConstructError.valueError

/-- Parses the `tags` field of `MemoryOperation(**d)`. -/
def parseTagsField (fields : List (String × JValue)) : Except ConstructError (List String) :=
  match fields.lookup "tags" with
  | none => Except.ok []
  | some (JValue.arr xs) =>
    match xs.mapM (fun v => match v with | JValue.str s => some s | _ => none) with
    | some tags => Except.ok tags
    | none => Except.error ConstructError.valueError
  | some _ => Except.error ConstructError.valueError

/-- Parses the `operation` field (`Literal["NEW", "UPDATE", "DELETE"]`). -/
def parseOpKindField (fields : List (String × JValue)) : Except ConstructError OpKind :=
  match fields.lookup "operation" with
  | some (JValue.str "NEW") => Except.ok OpKind.NEW
  | some (JValue.str "UPDATE") => Except.ok OpKind.UPDATE
  | some (JValue.str "DELETE") => Except.ok OpKind.DELETE
  | _ => Except.error ConstructError.valueError

/-- Embeds `MemoryOperation(**memory_dict)`: unpacking a non-mapping raises
`TypeError`; field validation failures and `validate_fields` raise
`ValueError` (pydantic `ValidationError`). -/
def MemoryOperation.ofJson (j : JValue) : Except ConstructError MemoryOperation :=
  match j with
  | JValue.obj fields =>
    match parseOpKindField fields, parseOptStrField fields "id",
        parseOptStrField fields "content", parseTagsField fields with
    | Except.ok op, Except.ok i, Except.ok c, Except.ok tags =>
      MemoryOperation.validate_fields ⟨op, i, c, tags⟩
    | _, _, _, _ => Except.error ConstructError.valueError
  | _ => Except.error ConstructError.typeError

/-- Converts an optional content string the way a Python f-string does
(`None` prints as `"None"`). -/
def pyStrOfOptStr : Option String → String
  | none => "None"
  | some s => s

/-- Embeds `Filter._format_memory_content`: bare content (or `""`) when there
are no tags, otherwise the `[Tags: …] ` prefix followed by the content. -/
def format_memory_content (op : MemoryOperation) : String :=
  if op.tags = [] then (op.content.getD "")
  else String.mk (fmtCore (op.tags.map String.data) (pyStrOfOptStr op.content).data)

/-- Embeds `Filter._validate_memory_operation`: the dict-level validator used
during extraction.  It checks only that `operation` is one of the three known
values and that the `id`/`content` keys required for the kind are present. -/
def validate_memory_operation (op : JValue) : Bool :=
  match op with
  | JValue.obj fields =>
    match fields.lookup "operation" with
    | none => false
    | some (JValue.str v) =>
      if ¬ (v = "NEW" ∨ v = "UPDATE" ∨ v = "DELETE") then false
      else if (v = "UPDATE" ∨ v = "DELETE") ∧ (fields.lookup "id").isNone then false
      else if (v = "NEW" ∨ v = "UPDATE") ∧ (fields.lookup "content").isNone then false
      else true
    | some _ => false
  | _ => false

/-- Embeds `Filter.identify_memories`.  The completion call and the JSON parse
are abstracted together as `response`: `Except.error ()` is an exception from
`query_openai_api` (caught by the outer handler), `Except.ok none` is a
`json.JSONDecodeError`, `Except.ok (some j)` is a successful parse.  The
`existingMemories` argument, like the input text, only enters the prompt sent
to the model and therefore does not otherwise affect the result. -/
def identify_memories (modelName : String) (existingMemories : List String)
    (response : Except Unit (Option JValue)) : List JValue :=
  if modelName = "" then []
  else
    match response with
    | Except.error _ => []
    | Except.ok none => []
    | Except.ok (some (JValue.arr ops)) => ops.filter validate_memory_operation
    | Except.ok (some _) => []

/-- Modelled from the spec: a stored memory record of the host-owned storage
(section 6 / section 3 `StoredMemory`); this code treats it as an opaque
record with an id, an owner and a content string. -/
structure StoredMemory where
  id : String
  user_id : String
  content : String
deriving DecidableEq

/-- Modelled from the spec: the state of the host-owned storage.  `nextId` is
the source of fresh record ids (`insert` returns a new record, so fresh ids
never collide with live ones; theorems that need this carry it as an explicit
freshness hypothesis). -/
structure Store where
  mems : List StoredMemory
  nextId : Nat
deriving DecidableEq

/-- Modelled from the spec: `insert(user_id, content) -> record`. -/
def Store.insert_new_memory (st : Store) (uid content : String) : Store :=
  ⟨st.mems ++ [⟨toString st.nextId, uid, content⟩], st.nextId + 1⟩

/-- Modelled from the spec: `get_by_id(id) -> record|none`. -/
def Store.get_memory_by_id (st : Store) (i : String) : Option StoredMemory :=
  st.mems.find? (fun m => m.id == i)

/-- Modelled from the spec: `delete_by_id(id) -> bool`; deleting a missing id
is a no-op that reports `false`. -/
def Store.delete_memory_by_id (st : Store) (i : String) : Store × Bool :=
  (⟨st.mems.filter (fun m => m.id != i), st.nextId⟩,
    (st.mems.find? (fun m => m.id == i)).isSome)

/-- Modelled from the spec: `list_by_user(user_id) -> sequence<record>`,
projected to the contents, which is all the filter reads. -/
def Store.get_memories_by_user_id (st : Store) (uid : String) : List String :=
  (st.mems.filter (fun m => m.user_id == uid)).map StoredMemory.content

/-- The host storage API as the filter calls it; each operation may raise
(storage exceptions surface as `Except.error ()`). -/
structure StorageApi where
  insert_new_memory : String → String → Store → Except Unit Store
  get_memory_by_id : String → Store → Except Unit (Option StoredMemory)
  delete_memory_by_id : String → Store → Except Unit (Store × Bool)

/-- The host API when no storage exception occurs: the pure `Store`
operations. -/
def hostApi : StorageApi :=
  ⟨fun uid c st => Except.ok (st.insert_new_memory uid c),
   fun i st => Except.ok (st.get_memory_by_id i),
   fun i st => Except.ok (st.delete_memory_by_id i)⟩

/-- Embeds `Filter._execute_memory_operation`: `NEW` inserts the formatted
content; `UPDATE` (with truthy id) looks the record up, deletes it when found,
then inserts the formatted content as a fresh record; `DELETE` (with truthy
id) deletes by id.  An operation whose guard fails is a no-op (the Python
`elif` chain falls through). -/
def execute_memory_operation (api : StorageApi) (op : MemoryOperation) (uid : String)
    (st : Store) : Except Unit Store :=
  let formatted := format_memory_content op
  match op.operation with
  | OpKind.NEW => api.insert_new_memory uid formatted st
  | OpKind.UPDATE =>
    if optTruthy op.id then
      match api.get_memory_by_id (op.id.getD "") st with
      | Except.error e => Except.error e
      | Except.ok old =>
        match (match old with
               | some _ => (api.delete_memory_by_id (op.id.getD "") st).map Prod.fst
               | none => Except.ok st) with
        | Except.error e => Except.error e
        | Except.ok st₁ => api.insert_new_memory uid formatted st₁
    else Except.ok st
  | OpKind.DELETE =>
    if optTruthy op.id then (api.delete_memory_by_id (op.id.getD "") st).map Prod.fst
    else Except.ok st

/-- Embeds `Filter.process_memories`.  The whole loop sits in one `try`: a
`ValueError` from constructing `MemoryOperation` is caught by the inner
handler and the loop continues with the next item; any other exception —
including a storage exception from `_execute_memory_operation` — propagates
to the outer handler, which logs and returns `False`, abandoning the
remaining items. -/
def process_memories (api : StorageApi) : List JValue → String → Store → Bool × Store
  | [], _, st => (true, st)
  | m :: rest, uid, st =>
    match MemoryOperation.ofJson m with
    | Except.error ConstructError.valueError => process_memories api rest uid st
    | Except.error ConstructError.typeError => (false, st)
    | Except.ok op =>
      match execute_memory_operation api op uid st with
      | Except.error _ => (false, st)
      | Except.ok st' => process_memories api rest uid st'

/-- Score of one memory in `get_relevant_memories`:
`len(set(mem_tags) & set(relevant_tags))`, the number of distinct parsed tags
that occur in the relevant-tag set. -/
def memory_score (content : String) (relevantTags : List String) : Nat :=
  (((parse_memory_tags content).dedup).filter (fun t => decide (t ∈ relevantTags))).length

/-- Boolean code-point-lexicographic `≤` on strings, CPython's ordering. -/
def charListLeB : List Char → List Char → Bool
  | [], _ => true
  | _ :: _, [] => false
  | a :: as, b :: bs =>
    if a.toNat < b.toNat then true
    else if b.toNat < a.toNat then false
    else charListLeB as bs

/-- Sort key order of `sorted(scored_memories, key=lambda x: (-x[1], x[0]))`:
descending score, ties broken by ascending content. -/
def memOrder (x y : String × Nat) : Prop :=
  y.2 < x.2 ∨ (x.2 = y.2 ∧ charListLeB x.1.data y.1.data = true)

instance memOrder.decidableRel : DecidableRel memOrder := fun x y => by
  unfold memOrder
  infer_instance

/-- Embeds the scoring / sorting / filtering tail of
`Filter.get_relevant_memories` (the part downstream of the LLM tag-selection
call): score every memory, stable-sort by `(-score, content)` (Python's
`sorted` is stable, and a stable sort by a total preorder is unique, so
`List.insertionSort` computes the same list), keep the strictly positive
scores and truncate to `n`. -/
def get_relevant_memories_ranked (memContents relevantTags : List String) (n : Nat) :
    List String :=
  let scored := memContents.map (fun c => (c, memory_score c relevantTags))
  let sortedMems := List.insertionSort memOrder scored
  ((sortedMems.filter (fun x => decide (0 < x.2))).map Prod.fst).take n

/-- Configuration valves of the filter (`Filter.Valves`). -/
structure Valves where
  model : String
  related_memories_n : Nat
  enabled : Bool

/-- External world of one hook invocation: the host user lookup and the two
completion calls (tag selection and extraction).  Each carries either an
exception or, for completion calls, the `json.loads` outcome of the returned
text (`none` models a parse failure). -/
structure Env where
  lookupUser : Except Unit (Option String)
  tagCall : Except Unit (Option JValue)
  extractCall : Except Unit (Option JValue)

/-- Embeds `Filter._get_relevant_tags_for_query`: any exception from the
completion call, the JSON parse, the `.get` attribute access or `.lower()` on
a non-string element is caught and yields `[]`; a string value for
`relevant_tags` is iterated per character (Python string iteration). -/
def get_relevant_tags_for_query (env : Env) : List String :=
  match env.tagCall with
  | Except.error _ => []
  | Except.ok none => []
  | Except.ok (some j) =>
    match j with
    | JValue.obj fs =>
      match fs.lookup "relevant_tags" with
      | none => []
      | some (JValue.arr xs) =>
        match xs.mapM (fun v => match v with
          | JValue.str s => some s.toLower
          | _ => none) with
        | some tags => tags
        | none => []
      | some (JValue.str s) => s.data.map (fun c => String.mk [c.toLower])
      | some _ => []
    | _ => []

/-- Embeds `Filter._get_all_memory_tags` (a Python `set`, modelled as the
deduplicated list; only emptiness and membership are consumed). -/
def get_all_memory_tags (uid : String) (st : Store) : List String :=
  (((st.get_memories_by_user_id uid).map parse_memory_tags).flatten).dedup

/-- Embeds `Filter.get_relevant_memories`: a `None` user makes the first
attribute access raise, which the handler converts to `[]`; an empty tag
vocabulary short-circuits to `[]`; otherwise the ranked pipeline runs with
the LLM-selected tags. -/
def get_relevant_memories (v : Valves) (env : Env) (user : Option String) (st : Store) :
    List String :=
  match user with
  | none => []
  | some uid =>
    let allTags := get_all_memory_tags uid st
    if allTags.isEmpty then []
    else
      get_relevant_memories_ranked (st.get_memories_by_user_id uid)
        (get_relevant_tags_for_query env) v.related_memories_n

mutual

/-- Python `repr` of a JSON value (used by `str(memories)` when the inlet
builds the »Recently stored memory« context line). -/
def pyRepr : JValue → String
  | JValue.null => "None"
  | JValue.bool b => if b then "True" else "False"
  | JValue.num n => toString n
  | JValue.str s => "\x27" ++ s ++ "\x27"
  | JValue.arr xs => "[" ++ pyReprList xs ++ "]"
  | JValue.obj fs => "\x7b" ++ pyReprFields fs ++ "\x7d"

def pyReprList : List JValue → String
  | [] => ""
  | [x] => pyRepr x
  | x :: y :: xs => pyRepr x ++ ", " ++ pyReprList (y :: xs)

def pyReprFields : List (String × JValue) → String
  | [] => ""
  | [(k, v)] => "\x27" ++ k ++ "\x27: " ++ pyRepr v
  | (k, v) :: f :: fs => "\x27" ++ k ++ "\x27: " ++ pyRepr v ++ ", " ++ pyReprFields (f :: fs)

end

/-- Python f-string interpolation of a JSON value (`f"- \x7bmemory['content']\x7d\n"`):
a string interpolates as itself, other values as their `str()`. -/
def pyFormatValue : JValue → String
  | JValue.str s => s
  | v => pyRepr v

/-- One chat message of the request body. -/
structure Msg where
  role : String
  content : String
deriving DecidableEq

/-- Request/response body: the `messages` key (absent, or a list) plus
implicitly-unchanged other keys. -/
structure Body where
  messages : Option (List Msg)
deriving DecidableEq

/-- Embeds `Filter._update_message_context`: nothing to add → body untouched;
otherwise the context is appended to an existing leading system message or
spliced in as a new first system message (also when the list is empty). -/
def update_message_context (b : Body) (memoryContext : String)
    (relevantMemories : List String) : Body :=
  if memoryContext = "" ∧ relevantMemories = [] then b
  else
    let context := memoryContext ++
      (if relevantMemories.isEmpty then ""
       else "\nRelevant memories for current context:\n" ++
         String.intercalate "\n" (relevantMemories.map (fun m => "- " ++ m)))
    match b.messages with
    | none => b
    | some [] => ⟨some [⟨"system", context⟩]⟩
    | some (first :: rest) =>
      if first.role = "system" then ⟨some (⟨first.role, first.content ++ context⟩ :: rest)⟩
      else ⟨some (⟨"system", context⟩ :: first :: rest)⟩

/-- Embeds `Filter._process_user_message`: retrieve relevant memories,
extract operations, and — when operations were found — record them in
`stored_memories` and, if the user object is truthy, apply them; the memory
context line only appears when `process_memories` reported success. -/
def process_user_message (v : Valves) (api : StorageApi) (env : Env)
    (user : Option String) (st : Store) :
    (String × List String) × Store × Option (List JValue) :=
  let relevant := get_relevant_memories v env user st
  let memories := identify_memories v.model relevant env.extractCall
  if memories.isEmpty then (("", relevant), st, none)
  else
    match user with
    | none => (("", relevant), st, some memories)
    | some uid =>
      match process_memories api memories uid st with
      | (true, st') =>
        (("\nRecently stored memory: " ++ pyRepr (JValue.arr memories), relevant),
          st', some memories)
      | (false, st') => (("", relevant), st', some memories)

/-- Embeds `Filter.inlet`.  Returns the (possibly updated) body, the final
value of `self.stored_memories` (reset to `None` on entry) and the final
storage state.  A falsy or non-dict body is `none`; a missing `__user__` is
`none`; every exception inside the `try` is caught and the body is returned
as it stands. -/
def inlet (v : Valves) (api : StorageApi) (env : Env) (body : Option Body)
    (userDict : Option String) (st : Store) :
    Option Body × Option (List JValue) × Store :=
  match body, userDict with
  | none, _ => (none, none, st)
  | some b, none => (some b, none, st)
  | some b, some _ =>
    match b.messages with
    | none => (some b, none, st)
    | some msgs =>
      if msgs.isEmpty then (some b, none, st)
      else if (msgs.filter (fun m => m.role == "user")).isEmpty then (some b, none, st)
      else
        match env.lookupUser with
        | Except.error _ => (some b, none, st)
        | Except.ok user =>
          let r := process_user_message v api env user st
          (some (update_message_context b r.1.1 r.1.2), r.2.2, r.2.1)

/-- Summary line one stored operation contributes to the outlet confirmation:
`NEW`/`UPDATE` contribute a `- content` line, everything else nothing. -/
def confirmation_line (op : JValue) : String :=
  match op with
  | JValue.obj fs =>
    match fs.lookup "operation" with
    | some (JValue.str v) =>
      if v = "NEW" ∨ v = "UPDATE" then
        match fs.lookup "content" with
        | some c => "- " ++ pyFormatValue c ++ "\n"
        | none => ""
      else ""
    | _ => ""
  | _ => ""

/-- Embeds the confirmation-building loop in `Filter.outlet`; subscripting a
non-dict or a missing key raises (`Except.error`), which the outlet handler
catches. -/
def build_confirmation_go (acc : String) : List JValue → Except Unit String
  | [] => Except.ok acc
  | op :: rest =>
    match op with
    | JValue.obj fs =>
      match fs.lookup "operation" with
      | none => Except.error ()
      | some (JValue.str v) =>
        if v = "NEW" ∨ v = "UPDATE" then
          match fs.lookup "content" with
          | none => Except.error ()
          | some c => build_confirmation_go (acc ++ "- " ++ pyFormatValue c ++ "\n") rest
        else build_confirmation_go acc rest
      | some _ => build_confirmation_go acc rest
    | _ => Except.error ()

/-- Confirmation text for the outlet, starting from the fixed header. -/
def build_confirmation (ops : List JValue) : Except Unit String :=
  build_confirmation_go "I\x27ve stored the following information in my memory:\n" ops

/-- Embeds `Filter.outlet`.  Takes the current `stored_memories` and body and
returns the new body and `stored_memories`: disabled → untouched; falsy
stored operations → untouched; otherwise one assistant confirmation message
is appended when the body has a message list, and `stored_memories` is reset
(unless building the confirmation raised, in which case it is kept). -/
def outlet (v : Valves) (stored : Option (List JValue)) (b : Body) :
    Body × Option (List JValue) :=
  if v.enabled then
    match stored with
    | some (op :: ops) =>
      (match b.messages with
       | some msgs =>
         match build_confirmation (op :: ops) with
         | Except.ok conf => (⟨some (msgs ++ [⟨"assistant", conf⟩])⟩, none)
         | Except.error _ => (b, some (op :: ops))
       | none => (b, none))
    | _ => (b, stored)
  else (b, stored)

/-- Storage API raising on the insert of content `"c1"` and behaving like the
host otherwise: a concrete storage exception on one operation of a batch. -/
def failingApi : StorageApi :=
  ⟨fun uid c st => if c = "c1" then Except.error () else Except.ok (st.insert_new_memory uid c),
   fun i st => Except.ok (st.get_memory_by_id i),
   fun i st => Except.ok (st.delete_memory_by_id i)⟩

/-- Concatenation of a list of strings (the confirmation text is the header
followed by the concatenated per-operation lines). -/
def joinStrings : List String → String
  | [] => ""
  | s :: rest => s ++ joinStrings rest

/-- Fields guaranteed by `validate_fields` succeeding: `UPDATE`/`DELETE` carry
a non-empty id and `NEW`/`UPDATE` carry non-empty content. -/
theorem validate_fields_ok (m m' : MemoryOperation)
    (h : MemoryOperation.validate_fields m = Except.ok m') :
    ((m'.operation = OpKind.UPDATE ∨ m'.operation = OpKind.DELETE) →
      ∃ s, m'.id = some s ∧ s ≠ "") ∧
    ((m'.operation = OpKind.NEW ∨ m'.operation = OpKind.UPDATE) →
      ∃ s, m'.content = some s ∧ s ≠ "") := by
  unfold MemoryOperation.validate_fields at h
  split_ifs at h with h1 h2
  have hm : m = m' := by cases h; rfl
  subst hm
  refine ⟨fun hop => ?_, fun hop => ?_⟩
  · have hid : optTruthy m.id = true := by
      rcases Bool.eq_false_or_eq_true (optTruthy m.id) with ht | hf
      · exact ht
      · exact absurd ⟨hop, hf⟩ h1
    cases hmi : m.id with
    | none => rw [hmi] at hid; simp [optTruthy] at hid
    | some s =>
      refine ⟨s, rfl, ?_⟩
      rw [hmi] at hid
      simpa [optTruthy] using hid
  · have hc : optTruthy m.content = true := by
      rcases Bool.eq_false_or_eq_true (optTruthy m.content) with ht | hf
      · exact ht
      · exact absurd ⟨hop, hf⟩ h2
    cases hmc : m.content with
    | none => rw [hmc] at hc; simp [optTruthy] at hc
    | some s =>
      refine ⟨s, rfl, ?_⟩
      rw [hmc] at hc
      simpa [optTruthy] using hc

/-- Claim C1 counterexample: two valid NEW operations, a storage API whose
insert raises on the first one.  The claim says the exception is caught and
the remaining operations are still applied, but `process_memories` returns
`False` with the store untouched — the second operation was never applied,
although applying it alone succeeds (second conjunct). -/
theorem claim_C1_counterexample :
    process_memories failingApi
      [JValue.obj [("operation", JValue.str "NEW"), ("content", JValue.str "c1")],
       JValue.obj [("operation", JValue.str "NEW"), ("content", JValue.str "c2")]]
      "u" ⟨[], 0⟩ = (false, ⟨[], 0⟩) ∧
    process_memories failingApi
      [JValue.obj [("operation", JValue.str "NEW"), ("content", JValue.str "c2")]]
      "u" ⟨[], 0⟩ = (true, ⟨[⟨"0", "u", "c2"⟩], 1⟩) :=
  ⟨rfl, rfl⟩

/-- Claim C1 (amended): a `ValueError` while constructing one operation is
caught and the remaining operations still processed, but a storage exception
while applying an operation propagates to the batch-level handler, which
returns `False` and abandons the remaining operations; a successful
application threads the new store through the rest of the batch. -/
theorem claim_C1 (api : StorageApi) (m : JValue) (rest : List JValue) (uid : String)
    (st : Store) (op : MemoryOperation) :
    (MemoryOperation.ofJson m = Except.error ConstructError.valueError →
      process_memories api (m :: rest) uid st = process_memories api rest uid st) ∧
    (MemoryOperation.ofJson m = Except.ok op →
      execute_memory_operation api op uid st = Except.error () →
      process_memories api (m :: rest) uid st = (false, st)) ∧
    (∀ st', MemoryOperation.ofJson m = Except.ok op →
      execute_memory_operation api op uid st = Except.ok st' →
      process_memories api (m :: rest) uid st = process_memories api rest uid st') := by
  refine ⟨fun h1 => ?_, fun h2 h3 => ?_, fun st' h4 h5 => ?_⟩
  · simp [process_memories, h1]
  · simp [process_memories, h2, h3]
  · simp [process_memories, h4, h5]

/-- Claim C1 witness: instantiates the amended claim at a concrete invalid
operation followed by a valid one. -/
theorem claim_C1_witness :
    process_memories hostApi
      [JValue.obj [("operation", JValue.str "NEW")],
       JValue.obj [("operation", JValue.str "NEW"), ("content", JValue.str "c2")]]
      "u" ⟨[], 0⟩ =
    process_memories hostApi
      [JValue.obj [("operation", JValue.str "NEW"), ("content", JValue.str "c2")]]
      "u" ⟨[], 0⟩ :=
  (claim_C1 hostApi (JValue.obj [("operation", JValue.str "NEW")])
    [JValue.obj [("operation", JValue.str "NEW"), ("content", JValue.str "c2")]]
    "u" ⟨[], 0⟩ ⟨OpKind.NEW, none, none, []⟩).1 rfl

/-- Claim C2 counterexample: the dict-level validator
`_validate_memory_operation` accepts a DELETE whose id is present but the
empty string (it checks key presence only), and such an operation survives
extraction — so »validation« as a whole does accept an operation whose kind
is DELETE and whose id is an empty string. -/
theorem claim_C2_counterexample :
    validate_memory_operation
      (JValue.obj [("operation", JValue.str "DELETE"), ("id", JValue.str "")]) = true ∧
    identify_memories "gpt-3.5-turbo" []
      (Except.ok (some (JValue.arr
        [JValue.obj [("operation", JValue.str "DELETE"), ("id", JValue.str "")]]))) =
      [JValue.obj [("operation", JValue.str "DELETE"), ("id", JValue.str "")]] :=
  ⟨rfl, rfl⟩

/-- Claim C2 (amended): the dict-level validator checks only that the `id` /
`content` keys required by the kind are present, so an empty-string value
survives extraction; the pydantic validator that gates application
(`validate_fields`, run by `MemoryOperation(**d)` inside
`process_memories`) rejects an absent or empty `id` for `UPDATE`/`DELETE`
and an absent or empty `content` for `NEW`/`UPDATE`, so every operation that
is actually applied satisfies the non-emptiness property. -/
theorem claim_C2 (m m' : MemoryOperation) (j : JValue) (op : MemoryOperation)
    (fs : List (String × JValue)) (v : String) :
    (MemoryOperation.validate_fields m = Except.ok m' →
      (((m'.operation = OpKind.UPDATE ∨ m'.operation = OpKind.DELETE) →
        ∃ s, m'.id = some s ∧ s ≠ "") ∧
      ((m'.operation = OpKind.NEW ∨ m'.operation = OpKind.UPDATE) →
        ∃ s, m'.content = some s ∧ s ≠ ""))) ∧
    (MemoryOperation.ofJson j = Except.ok op →
      (((op.operation = OpKind.UPDATE ∨ op.operation = OpKind.DELETE) →
        ∃ s, op.id = some s ∧ s ≠ "") ∧
      ((op.operation = OpKind.NEW ∨ op.operation = OpKind.UPDATE) →
        ∃ s, op.content = some s ∧ s ≠ ""))) ∧
    (validate_memory_operation (JValue.obj fs) = true →
      fs.lookup "operation" = some (JValue.str v) →
      (((v = "UPDATE" ∨ v = "DELETE") → (fs.lookup "id").isSome) ∧
      ((v = "NEW" ∨ v = "UPDATE") → (fs.lookup "content").isSome))) := by
  refine ⟨fun h => validate_fields_ok m m' h, fun h => ?_, fun h hop => ?_⟩
  · cases j with
    | obj fields =>
      unfold MemoryOperation.ofJson at h
      dsimp only at h
      rcases h1 : parseOpKindField fields with e | k <;> rw [h1] at h
      · cases h
      rcases h2 : parseOptStrField fields "id" with e | i <;> rw [h2] at h
      · cases h
      rcases h3 : parseOptStrField fields "content" with e | c <;> rw [h3] at h
      · cases h
      rcases h4 : parseTagsField fields with e | tg <;> rw [h4] at h
      · cases h
      exact validate_fields_ok _ _ h
    | null => cases h
    | bool b => cases h
    | num n => cases h
    | str s => cases h
    | arr xs => cases h
  · unfold validate_memory_operation at h
    dsimp only at h
    rw [hop] at h
    dsimp only at h
    split_ifs at h with hk hid hc
    constructor
    · intro hv
      rcases ho : fs.lookup "id" with _ | x
      · exact absurd ⟨hv, by rw [ho]; rfl⟩ hid
      · rfl
    · intro hv
      rcases ho : fs.lookup "content" with _ | x
      · exact absurd ⟨hv, by rw [ho]; rfl⟩ hc
      · rfl

/-- Claim C2 witness: instantiates the amended claim at a concrete UPDATE
operation with non-empty id and content. -/
theorem claim_C2_witness :
    (((OpKind.UPDATE = OpKind.UPDATE ∨ OpKind.UPDATE = OpKind.DELETE) →
      ∃ s, (some "7" : Option String) = some s ∧ s ≠ "") ∧
    ((OpKind.UPDATE = OpKind.NEW ∨ OpKind.UPDATE = OpKind.UPDATE) →
      ∃ s, (some "c" : Option String) = some s ∧ s ≠ "")) :=
  (claim_C2 ⟨OpKind.UPDATE, some "7", some "c", []⟩ ⟨OpKind.UPDATE, some "7", some "c", []⟩
    JValue.null ⟨OpKind.UPDATE, some "7", some "c", []⟩ [] "UPDATE").1 rfl

/-- Claim C3 counterexample: an UPDATE whose id (`"999"`) is not the id of
any recognized existing memory — the existing-memories argument is `[]`, so
no id is recognized — survives extraction: `_validate_memory_operation`
never consults the existing memories, it only checks that an `id` key is
present. -/
theorem claim_C3_counterexample :
    identify_memories "gpt-3.5-turbo" []
      (Except.ok (some (JValue.arr [JValue.obj [("operation", JValue.str "UPDATE"),
        ("id", JValue.str "999"), ("content", JValue.str "x")]]))) =
    [JValue.obj [("operation", JValue.str "UPDATE"),
      ("id", JValue.str "999"), ("content", JValue.str "x")]] :=
  rfl

/-- Claim C3 (amended): candidates are validated independently — unknown
operation values, UPDATE/DELETE without an `id` key, and NEW/UPDATE without a
`content` key are discarded (the id is never compared against the existing
memories); the surviving operations are exactly the filtered list, in the
order the model returned them (a sublist of the response array). -/
theorem claim_C3 (modelName : String) (fs : List (String × JValue)) (v : String)
    (ops : List JValue) (existing : List String) :
    (fs.lookup "operation" = none → validate_memory_operation (JValue.obj fs) = false) ∧
    (fs.lookup "operation" = some (JValue.str v) →
      ¬ (v = "NEW" ∨ v = "UPDATE" ∨ v = "DELETE") →
      validate_memory_operation (JValue.obj fs) = false) ∧
    ((v = "UPDATE" ∨ v = "DELETE") → fs.lookup "operation" = some (JValue.str v) →
      fs.lookup "id" = none → validate_memory_operation (JValue.obj fs) = false) ∧
    ((v = "NEW" ∨ v = "UPDATE") → fs.lookup "operation" = some (JValue.str v) →
      fs.lookup "content" = none → validate_memory_operation (JValue.obj fs) = false) ∧
    (modelName ≠ "" →
      identify_memories modelName existing (Except.ok (some (JValue.arr ops))) =
        ops.filter validate_memory_operation) ∧
    (identify_memories modelName existing (Except.ok (some (JValue.arr ops)))).Sublist ops := by
  refine ⟨fun h => ?_, fun h hv => ?_, fun hv h hid => ?_, fun hv h hc => ?_, fun hm => ?_, ?_⟩
  · simp [validate_memory_operation, h]
  · simp [validate_memory_operation, h, hv]
  · have : (fs.lookup "id").isNone = true := by rw [hid]; rfl
    rcases hv with hv | hv <;>
      simp [validate_memory_operation, h, hv, this]
  · have : (fs.lookup "content").isNone = true := by rw [hc]; rfl
    rcases hv with hv | hv <;>
      simp [validate_memory_operation, h, hv, this]
  · simp [identify_memories, hm]
  · by_cases hm : modelName = ""
    · simp [identify_memories, hm]
    · simp [identify_memories, hm]

/-- Claim C3 witness: instantiates the amended claim on a three-element
response where the middle candidate (an unknown operation) is the only one
discarded, keeping the order of the other two. -/
theorem claim_C3_witness :
    identify_memories "gpt-3.5-turbo" ["[Tags: x] old"]
      (Except.ok (some (JValue.arr
        [JValue.obj [("operation", JValue.str "NEW"), ("content", JValue.str "a")],
         JValue.obj [("operation", JValue.str "ARCHIVE"), ("content", JValue.str "b")],
         JValue.obj [("operation", JValue.str "DELETE"), ("id", JValue.str "1")]]))) =
      List.filter validate_memory_operation
        [JValue.obj [("operation", JValue.str "NEW"), ("content", JValue.str "a")],
         JValue.obj [("operation", JValue.str "ARCHIVE"), ("content", JValue.str "b")],
         JValue.obj [("operation", JValue.str "DELETE"), ("id", JValue.str "1")]] :=
  (claim_C3 "gpt-3.5-turbo" [] "NEW"
    [JValue.obj [("operation", JValue.str "NEW"), ("content", JValue.str "a")],
     JValue.obj [("operation", JValue.str "ARCHIVE"), ("content", JValue.str "b")],
     JValue.obj [("operation", JValue.str "DELETE"), ("id", JValue.str "1")]]
    ["[Tags: x] old"]).2.2.2.2.1 (by decide)

/-- Claim C4: malformed model output — a completion exception, text that is
not JSON, JSON that is not an array — yields an empty operation list, and a
non-object item in an otherwise valid array is dropped without affecting its
siblings. -/
theorem claim_C4 (modelName : String) (existing : List String) (j : JValue)
    (xs ys : List JValue) (x : JValue) :
    identify_memories modelName existing (Except.error ()) = [] ∧
    identify_memories modelName existing (Except.ok none) = [] ∧
    ((∀ l, j ≠ JValue.arr l) →
      identify_memories modelName existing (Except.ok (some j)) = []) ∧
    ((∀ fs, x ≠ JValue.obj fs) →
      identify_memories modelName existing (Except.ok (some (JValue.arr (xs ++ x :: ys)))) =
        identify_memories modelName existing (Except.ok (some (JValue.arr (xs ++ ys))))) := by
  refine ⟨?_, ?_, fun hj => ?_, fun hx => ?_⟩
  · by_cases hm : modelName = "" <;> simp [identify_memories, hm]
  · by_cases hm : modelName = "" <;> simp [identify_memories, hm]
  · by_cases hm : modelName = "" <;> cases j <;> simp [identify_memories, hm]
    exact absurd rfl (hj _)
  · have hvx : validate_memory_operation x = false := by
      cases x <;> first | rfl | exact absurd rfl (hx _)
    by_cases hm : modelName = "" <;>
      simp [identify_memories, hm, List.filter_append, hvx]

/-- Claim C4 witness: instantiates the claim at a concrete non-array response
and at an array holding a stray string between two valid operations. -/
theorem claim_C4_witness :
    identify_memories "gpt-3.5-turbo" [] (Except.ok (some (JValue.str "no memories"))) = [] ∧
    identify_memories "gpt-3.5-turbo" []
      (Except.ok (some (JValue.arr
        [JValue.obj [("operation", JValue.str "NEW"), ("content", JValue.str "a")],
         JValue.str "stray",
         JValue.obj [("operation", JValue.str "DELETE"), ("id", JValue.str "1")]]))) =
      identify_memories "gpt-3.5-turbo" []
        (Except.ok (some (JValue.arr
          [JValue.obj [("operation", JValue.str "NEW"), ("content", JValue.str "a")],
           JValue.obj [("operation", JValue.str "DELETE"), ("id", JValue.str "1")]]))) :=
  ⟨(claim_C4 "gpt-3.5-turbo" [] (JValue.str "no memories") [] [] JValue.null).2.2.1
      (fun l h => by cases h),
   (claim_C4 "gpt-3.5-turbo" [] JValue.null
      [JValue.obj [("operation", JValue.str "NEW"), ("content", JValue.str "a")]]
      [JValue.obj [("operation", JValue.str "DELETE"), ("id", JValue.str "1")]]
      (JValue.str "stray")).2.2.2 (fun fs h => by cases h)⟩

/-- Claim C7: with the host storage semantics, an UPDATE whose id is found
deletes the old record and inserts a fresh record with the formatted content
for the acting user â so the surviving record’s id differs from the old one
(given that the fresh id is not already live); a DELETE whose id is found
removes every record with that id, so the id no longer resolves; and a
DELETE whose id is missing leaves the store untouched. -/
theorem claim_C7 (st : Store) (uid i c : String) (tags : List String) (old : StoredMemory) :
    (i ≠ "" → st.get_memory_by_id i = some old →
      toString st.nextId ∉ st.mems.map StoredMemory.id →
      execute_memory_operation hostApi ⟨OpKind.UPDATE, some i, some c, tags⟩ uid st =
        Except.ok ⟨(st.mems.filter (fun m => m.id != i)) ++
          [⟨toString st.nextId, uid,
            format_memory_content ⟨OpKind.UPDATE, some i, some c, tags⟩⟩], st.nextId + 1⟩ ∧
      toString st.nextId ≠ i) ∧
    (i ≠ "" → st.get_memory_by_id i = some old →
      execute_memory_operation hostApi ⟨OpKind.DELETE, some i, none, tags⟩ uid st =
        Except.ok ⟨st.mems.filter (fun m => m.id != i), st.nextId⟩ ∧
      Store.get_memory_by_id ⟨st.mems.filter (fun m => m.id != i), st.nextId⟩ i = none) ∧
    (i ≠ "" → st.get_memory_by_id i = none →
      execute_memory_operation hostApi ⟨OpKind.DELETE, some i, none, tags⟩ uid st =
        Except.ok st) := by
  refine ⟨fun hne hfound hfresh => ?_, fun hne hfound => ?_, fun hne hnone => ?_⟩
  · have htruthy : optTruthy (some i) = true := by simp [optTruthy, hne]
    have hfind : st.mems.find? (fun m => m.id == i) = some old := hfound
    constructor
    · simp only [execute_memory_operation, htruthy, if_true, hostApi, Option.getD_some,
        hfound, Store.delete_memory_by_id, Except.map, Store.insert_new_memory]
    · intro hcol
      apply hfresh
      have hmem : old ∈ st.mems := List.mem_of_find?_eq_some hfind
      have hpred := List.find?_some hfind
      have : old.id = i := by simpa using hpred
      rw [hcol, ← this]
      exact List.mem_map_of_mem StoredMemory.id hmem
  · have htruthy : optTruthy (some i) = true := by simp [optTruthy, hne]
    constructor
    · simp only [execute_memory_operation, htruthy, if_true, hostApi, Option.getD_some,
        Store.delete_memory_by_id, Except.map]
    · unfold Store.get_memory_by_id
      apply List.find?_eq_none.mpr
      intro m hm
      have hmf := (List.mem_filter.mp hm).2
      simpa using hmf
  · have htruthy : optTruthy (some i) = true := by simp [optTruthy, hne]
    have hfind : st.mems.find? (fun m => m.id == i) = none := hnone
    have hkeep : st.mems.filter (fun m => m.id != i) = st.mems := by
      apply List.filter_eq_self.mpr
      intro a ha
      have : ¬ (a.id == i) = true := List.find?_eq_none.mp hfind a ha
      simpa using this
    simp only [execute_memory_operation, htruthy, if_true, hostApi, Option.getD_some,
      Store.delete_memory_by_id, Except.map, hkeep]

/-- Claim C7 witness: a one-record store; updating id `"1"` removes the old
record and inserts the formatted content under the fresh id `"2"`; deleting
the existing id `"1"` removes the record and the id stops resolving; deleting
the missing id `"9"` is a no-op. -/
theorem claim_C7_witness :
    (execute_memory_operation hostApi ⟨OpKind.UPDATE, some "1", some "new", []⟩ "u"
        ⟨[⟨"1", "u", "old"⟩], 2⟩ =
      Except.ok ⟨[⟨"2", "u", format_memory_content ⟨OpKind.UPDATE, some "1", some "new", []⟩⟩], 3⟩ ∧
      "2" ≠ "1") ∧
    (execute_memory_operation hostApi ⟨OpKind.DELETE, some "1", none, []⟩ "u"
        ⟨[⟨"1", "u", "old"⟩], 2⟩ =
      Except.ok ⟨[], 2⟩ ∧
      Store.get_memory_by_id ⟨[], 2⟩ "1" = none) ∧
    execute_memory_operation hostApi ⟨OpKind.DELETE, some "9", none, []⟩ "u"
        ⟨[⟨"1", "u", "old"⟩], 2⟩ =
      Except.ok ⟨[⟨"1", "u", "old"⟩], 2⟩ :=
  ⟨(claim_C7 ⟨[⟨"1", "u", "old"⟩], 2⟩ "u" "1" "new" [] ⟨"1", "u", "old"⟩).1
      (by decide) rfl (by decide),
   (claim_C7 ⟨[⟨"1", "u", "old"⟩], 2⟩ "u" "1" "unused" [] ⟨"1", "u", "old"⟩).2.1
      (by decide) rfl,
   (claim_C7 ⟨[⟨"1", "u", "old"⟩], 2⟩ "u" "9" "unused" [] ⟨"1", "u", "old"⟩).2.2
      (by decide) rfl⟩

/-- Totality of the boolean lexicographic string order. -/
theorem charListLeB_total : ∀ (a b : List Char), charListLeB a b = true ∨ charListLeB b a = true := by
  intro a
  induction a with
  | nil => intro b; left; rfl
  | cons x xs ih =>
    intro b
    cases b with
    | nil => right; rfl
    | cons y ys =>
      rcases Nat.lt_trichotomy x.toNat y.toNat with h | h | h
      · left; simp [charListLeB, h]
      · rcases ih ys with hle | hle
        · left; simp [charListLeB, h, hle]
        · right; simp [charListLeB, h.symm, hle]
      · right; simp [charListLeB, h]

/-- Transitivity of the boolean lexicographic string order. -/
theorem charListLeB_trans : ∀ (a b c : List Char), charListLeB a b = true →
    charListLeB b c = true → charListLeB a c = true := by
  intro a
  induction a with
  | nil => intros; rfl
  | cons x xs ih =>
    intro b c hab hbc
    cases b with
    | nil => simp [charListLeB] at hab
    | cons y ys =>
      cases c with
      | nil => simp [charListLeB] at hbc
      | cons z zs =>
        rcases Nat.lt_trichotomy x.toNat y.toNat with h1 | h1 | h1
        · rcases Nat.lt_trichotomy y.toNat z.toNat with h2 | h2 | h2
          · have h3 : x.toNat < z.toNat := Nat.lt_trans h1 h2
            simp [charListLeB, h3]
          · have h3 : x.toNat < z.toNat := by omega
            simp [charListLeB, h3]
          · have hy1 : ¬ y.toNat < z.toNat := by omega
            simp [charListLeB, hy1, h2] at hbc
        · rcases Nat.lt_trichotomy y.toNat z.toNat with h2 | h2 | h2
          · have h3 : x.toNat < z.toNat := by omega
            simp [charListLeB, h3]
          · have hx1 : ¬ x.toNat < y.toNat := by omega
            have hy1 : ¬ y.toNat < x.toNat := by omega
            have hx2 : ¬ y.toNat < z.toNat := by omega
            have hy2 : ¬ z.toNat < y.toNat := by omega
            have hx3 : ¬ x.toNat < z.toNat := by omega
            have hy3 : ¬ z.toNat < x.toNat := by omega
            simp [charListLeB, hx1, hy1] at hab
            simp [charListLeB, hx2, hy2] at hbc
            simp [charListLeB, hx3, hy3]
            exact ih ys zs hab hbc
          · have hy1 : ¬ y.toNat < z.toNat := by omega
            simp [charListLeB, hy1, h2] at hbc
        · have hx1 : ¬ x.toNat < y.toNat := by omega
          simp [charListLeB, hx1, h1] at hab

/-- Claim C5: relevance retrieval scores each memory by the size of the
intersection of its parsed tags with the relevant-tag set, returns only
memories with strictly positive score drawn from the input, truncated to `n`,
in an order where scores descend and ties are broken by the content string
ascending; and the spec's concrete example produces `[A, B]`. -/
theorem claim_C5 (mems tags : List String) (n : Nat) :
    (get_relevant_memories_ranked mems tags n).length ≤ n ∧
    (∀ c ∈ get_relevant_memories_ranked mems tags n, c ∈ mems ∧ 0 < memory_score c tags) ∧
    (get_relevant_memories_ranked mems tags n).Pairwise (fun a b =>
      memory_score b tags < memory_score a tags ∨
      (memory_score a tags = memory_score b tags ∧ charListLeB a.data b.data = true)) ∧
    get_relevant_memories_ranked ["[Tags: x, y] alpha", "[Tags: y] beta", "gamma"] ["y"] 10 =
      ["[Tags: x, y] alpha", "[Tags: y] beta"] := by
  haveI htrans : IsTrans (String × Nat) memOrder := by
    refine ⟨fun a b c hab hbc => ?_⟩
    rcases hab with h | ⟨he, hle⟩ <;> rcases hbc with h' | ⟨he', hle'⟩
    · exact Or.inl (Nat.lt_trans h' h)
    · exact Or.inl (by omega)
    · exact Or.inl (by omega)
    · exact Or.inr ⟨by omega, charListLeB_trans _ _ _ hle hle'⟩
  haveI htot : IsTotal (String × Nat) memOrder := by
    refine ⟨fun a b => ?_⟩
    rcases Nat.lt_trichotomy a.2 b.2 with h | h | h
    · exact Or.inr (Or.inl h)
    · rcases charListLeB_total a.1.data b.1.data with hle | hle
      · exact Or.inl (Or.inr ⟨h, hle⟩)
      · exact Or.inr (Or.inr ⟨h.symm, hle⟩)
    · exact Or.inl (Or.inl h)
  have hscored : ∀ p : String × Nat,
      p ∈ (mems.map (fun c => (c, memory_score c tags))) → p.2 = memory_score p.1 tags := by
    intro p hp
    rcases List.mem_map.mp hp with ⟨c, _, rfl⟩
    rfl
  have hperm := List.perm_insertionSort memOrder (mems.map (fun c => (c, memory_score c tags)))
  refine ⟨?_, fun c hc => ?_, ?_, by decide⟩
  · unfold get_relevant_memories_ranked
    simpa using List.length_take_le n _
  · unfold get_relevant_memories_ranked at hc
    have hc' := List.take_subset n _ hc
    rcases List.mem_map.mp hc' with ⟨p, hpf, rfl⟩
    have hpmem := List.mem_filter.mp hpf
    have hps : p ∈ mems.map (fun c => (c, memory_score c tags)) := hperm.subset hpmem.1
    rcases List.mem_map.mp hps with ⟨c0, hc0, rfl⟩
    refine ⟨hc0, ?_⟩
    simpa using hpmem.2
  · unfold get_relevant_memories_ranked
    have hsor : List.Sorted memOrder
        (List.insertionSort memOrder (mems.map (fun c => (c, memory_score c tags)))) :=
      List.sorted_insertionSort memOrder _
    have hpairf : (List.filter (fun x => decide (0 < x.2))
        (List.insertionSort memOrder (mems.map (fun c => (c, memory_score c tags))))).Pairwise
          memOrder :=
      hsor.sublist (List.filter_sublist _)
    have hmemf : ∀ p ∈ List.filter (fun x => decide (0 < x.2))
        (List.insertionSort memOrder (mems.map (fun c => (c, memory_score c tags)))),
        p.2 = memory_score p.1 tags := by
      intro p hp
      exact hscored p (hperm.subset (List.mem_filter.mp hp).1)
    have hpairm : ((List.filter (fun x => decide (0 < x.2))
        (List.insertionSort memOrder (mems.map (fun c => (c, memory_score c tags))))).map
          Prod.fst).Pairwise (fun a b =>
            memory_score b tags < memory_score a tags ∨
            (memory_score a tags = memory_score b tags ∧ charListLeB a.data b.data = true)) := by
      rw [List.pairwise_map]
      refine List.Pairwise.imp_of_mem ?_ hpairf
      intro p q hp hq hpq
      rw [← hmemf p hp, ← hmemf q hq]
      exact hpq
    exact hpairm.sublist (List.take_sublist n _)

/-- Claim C5 witness: instantiates the quantified part at the spec's concrete
example, discharging the membership hypothesis. -/
theorem claim_C5_witness :
    "[Tags: y] beta" ∈ (["[Tags: x, y] alpha", "[Tags: y] beta", "gamma"] : List String) ∧
    0 < memory_score "[Tags: y] beta" ["y"] :=
  (claim_C5 ["[Tags: x, y] alpha", "[Tags: y] beta", "gamma"] ["y"] 10).2.1
    "[Tags: y] beta" (by decide)

/-- Splitting a string that does not contain the separator. -/
theorem splitCharAux_not_mem (c : Char) (s : List Char) (h : c ∉ s) :
    splitCharAux c s = (s, []) := by
  induction s with
  | nil => rfl
  | cons a rest ih =>
    have hne : a ≠ c := fun he => h (he ▸ List.mem_cons_self a rest)
    have hr : c ∉ rest := fun hm => h (List.mem_cons_of_mem a hm)
    simp [splitCharAux, hne, ih hr]

/-- Python split on a separator-free string gives one segment. -/
theorem splitChar_not_mem (c : Char) (s : List Char) (h : c ∉ s) : splitChar c s = [s] := by
  simp [splitChar, splitCharAux_not_mem c s h]

/-- Splitting past the first separator occurrence. -/
theorem splitCharAux_append (c : Char) (pre rest : List Char) (h : c ∉ pre) :
    splitCharAux c (pre ++ c :: rest) = (pre, splitChar c rest) := by
  induction pre with
  | nil => simp [splitCharAux, splitChar]
  | cons a p ih =>
    have hne : a ≠ c := fun he => h (he ▸ List.mem_cons_self a p)
    have hp : c ∉ p := fun hm => h (List.mem_cons_of_mem a hm)
    simp [splitCharAux, hne, ih hp]

/-- Python split after the first separator occurrence. -/
theorem splitChar_append (c : Char) (pre rest : List Char) (h : c ∉ pre) :
    splitChar c (pre ++ c :: rest) = pre :: splitChar c rest := by
  simp [splitChar, splitCharAux_append c pre rest h]

/-- Head of a split at the first separator occurrence. -/
theorem splitChar_headD_append (c : Char) (pre rest : List Char) (h : c ∉ pre) :
    (splitChar c (pre ++ c :: rest)).headD [] = pre := by
  simp [splitChar_append c pre rest h]

/-- Fuel irrelevance for the replacement loop: any fuel bounded below by the
string length computes the same result. -/
theorem replaceAllGo_fuel (pat rep : List Char) :
    ∀ (f g : Nat) (s : List Char), s.length ≤ f → s.length ≤ g →
      replaceAllGo pat rep f s = replaceAllGo pat rep g s := by
  intro f
  induction f with
  | zero =>
    intro g s hf _
    have hs : s = [] := List.eq_nil_of_length_eq_zero (Nat.le_zero.mp hf)
    subst hs
    cases g <;> rfl
  | succ f ih =>
    intro g s hf hg
    cases s with
    | nil => cases g <;> rfl
    | cons a rest =>
      cases g with
      | zero => simp at hg
      | succ g' =>
        have hf' : rest.length ≤ f := by simp [List.length_cons] at hf; omega
        have hg' : rest.length ≤ g' := by simp [List.length_cons] at hg; omega
        by_cases hcond : pat.isPrefixOf (a :: rest) ∧ pat ≠ []
        · have hd : (List.drop (pat.length - 1) rest).length ≤ f := by
            rw [List.length_drop]
            omega
          have hd' : (List.drop (pat.length - 1) rest).length ≤ g' := by
            rw [List.length_drop]
            omega
          simp only [replaceAllGo, if_pos hcond]
          rw [ih _ _ hd hd']
        · simp only [replaceAllGo, if_neg hcond]
          rw [ih _ _ hf' hg']

/-- Replacement is the identity when the pattern never occurs. -/
theorem replaceAllGo_not_infix (pat rep : List Char) :
    ∀ (f : Nat) (s : List Char), ¬ (pat <:+: s) → replaceAllGo pat rep f s = s := by
  intro f
  induction f with
  | zero => intro s _; cases s <;> rfl
  | succ f ih =>
    intro s h
    cases s with
    | nil => rfl
    | cons a rest =>
      have hcond : ¬ (pat.isPrefixOf (a :: rest) ∧ pat ≠ []) := by
        rintro ⟨hp, -⟩
        exact h (List.IsPrefix.isInfix (List.isPrefixOf_iff_prefix.mp hp))
      simp only [replaceAllGo, if_neg hcond]
      congr 1
      apply ih
      intro hinf
      exact h (hinf.trans (List.suffix_cons a rest).isInfix)

/-- Python `replace` on a pattern-free string is the identity. -/
theorem replaceAll_not_infix (pat rep s : List Char) (h : ¬ pat <:+: s) :
    replaceAll pat rep s = s :=
  replaceAllGo_not_infix pat rep s.length s h

/-- Python `replace` consumes a leading pattern occurrence. -/
theorem replaceAll_prefix (pat rep s : List Char) (hne : pat ≠ []) :
    replaceAll pat rep (pat ++ s) = rep ++ replaceAll pat rep s := by
  cases pat with
  | nil => exact absurd rfl hne
  | cons p pt =>
    show replaceAllGo (p :: pt) rep ((p :: pt) ++ s).length (p :: (pt ++ s)) = _
    have hcond : (p :: pt).isPrefixOf (p :: (pt ++ s)) ∧ (p :: pt) ≠ [] :=
      ⟨List.isPrefixOf_iff_prefix.mpr ⟨s, by simp⟩, by simp⟩
    have hlen : ((p :: pt) ++ s).length = (pt.length + s.length) + 1 := by
      simp [List.length_append, List.length_cons]
    rw [hlen, replaceAllGo, if_pos hcond]
    have hdrop : List.drop ((p :: pt).length - 1) (pt ++ s) = s := by
      simp only [List.length_cons, Nat.add_sub_cancel]
      exact List.drop_left pt s
    rw [hdrop]
    congr 1
    exact replaceAllGo_fuel (p :: pt) rep _ _ s (by omega) (Nat.le_refl _)

/-- Membership in a separator join. -/
theorem not_mem_joinSep (c : Char) (sep : List Char) (hs : c ∉ sep) :
    ∀ (tags : List (List Char)), (∀ t ∈ tags, c ∉ t) → c ∉ joinSep sep tags := by
  intro tags
  induction tags with
  | nil => intro _ hm; cases hm
  | cons t ts ih =>
    intro h
    cases ts with
    | nil => simpa [joinSep] using h t (by simp)
    | cons t' ts' =>
      intro hmem
      simp only [joinSep] at hmem
      rcases List.mem_append.mp hmem with hm | hm
      · rcases List.mem_append.mp hm with hm1 | hm2
        · exact h t (by simp) hm1
        · exact hs hm2
      · exact ih (fun u hu => h u (List.mem_cons_of_mem _ hu)) hm

/-- A string fixed by lowercasing cannot contain a character changed by
lowercasing. -/
theorem not_mem_of_lower_fix (c : Char) (hc : c.toLower ≠ c) :
    ∀ (t : List Char), pyLowerCore t = t → c ∉ t := by
  intro t
  induction t with
  | nil => intro _ hm; cases hm
  | cons a rest ih =>
    intro h hmem
    simp only [pyLowerCore, List.map_cons, List.cons.injEq] at h
    rcases List.mem_cons.mp hmem with rfl | hm
    · exact hc h.1
    · exact ih h.2 hm

/-- Stripping absorbs an added leading blank. -/
theorem pyStripCore_cons_space (t : List Char) : pyStripCore (' ' :: t) = pyStripCore t := by
  have hsp : (' ' : Char).isWhitespace = true := by decide
  simp [pyStripCore, List.dropWhile_cons, hsp]

/-- Splitting the comma-joined tag list recovers the tags, each with the
separator's trailing blank prepended. -/
theorem splitChar_comma_join :
    ∀ (tags : List (List Char)), tags ≠ [] → (∀ t ∈ tags, (',' : Char) ∉ t) →
      splitChar ',' (' ' :: joinSep ", ".data tags) = tags.map (fun t => ' ' :: t) := by
  intro tags
  induction tags with
  | nil => intro h; exact absurd rfl h
  | cons t ts ih =>
    intro _ hcomma
    have hpre : (',' : Char) ∉ ' ' :: t := by
      intro hm
      rcases List.mem_cons.mp hm with he | hm'
      · exact absurd he (by decide)
      · exact hcomma t (by simp) hm'
    cases ts with
    | nil => simp [joinSep, splitChar_not_mem ',' (' ' :: t) hpre]
    | cons t' ts' =>
      have hjoin : joinSep ", ".data (t :: t' :: ts') =
          t ++ (',' :: (' ' :: joinSep ", ".data (t' :: ts'))) := by
        show t ++ ", ".data ++ joinSep ", ".data (t' :: ts') = _
        rw [List.append_assoc]
        rfl
      rw [hjoin]
      have hassoc : ' ' :: (t ++ (',' :: (' ' :: joinSep ", ".data (t' :: ts')))) =
          (' ' :: t) ++ ',' :: (' ' :: joinSep ", ".data (t' :: ts')) := by simp
      rw [hassoc, splitChar_append ',' (' ' :: t) _ hpre,
        ih (by simp) (fun u hu => hcomma u (List.mem_cons_of_mem _ hu))]
      rfl

/-- Round trip at the code-point level: parsing the formatted content of a
non-empty tag list whose tags are comma-free, bracket-free, strip-fixed and
lowercase-fixed recovers exactly the tags. -/
theorem parseCore_fmtCore (tags : List (List Char)) (content : List Char)
    (hne : tags ≠ [])
    (hcomma : ∀ t ∈ tags, (',' : Char) ∉ t)
    (hbr : ∀ t ∈ tags, (']' : Char) ∉ t)
    (hlow : ∀ t ∈ tags, pyLowerCore t = t)
    (hstrip : ∀ t ∈ tags, pyStripCore t = t) :
    parseCore (fmtCore tags content) = tags := by
  have hT : ∀ t ∈ tags, ('T' : Char) ∉ t := fun t ht =>
    not_mem_of_lower_fix 'T' (by decide) t (hlow t ht)
  have hAB : "[Tags: ".data = "[Tags:".data ++ [' '] := by decide
  have hsplit : fmtCore tags content =
      ("[Tags: ".data ++ joinSep ", ".data tags) ++ ']' :: (' ' :: content) := by
    show "[Tags: ".data ++ joinSep ", ".data tags ++ "] ".data ++ content = _
    rw [List.append_assoc]
    rfl
  have hprefix : "[Tags:".data <+: fmtCore tags content := by
    refine ⟨' ' :: (joinSep ", ".data tags ++ ("] ".data ++ content)), ?_⟩
    show _ = "[Tags: ".data ++ joinSep ", ".data tags ++ "] ".data ++ content
    rw [hAB]
    simp [List.append_assoc]
  have hinfix : "[Tags:".data <:+: fmtCore tags content := hprefix.isInfix
  have hnobr : (']' : Char) ∉ "[Tags: ".data ++ joinSep ", ".data tags := by
    intro hm
    rcases List.mem_append.mp hm with hm | hm
    · revert hm; decide
    · exact not_mem_joinSep ']' ", ".data (by decide) tags hbr hm
  have hhead : (splitChar ']' (fmtCore tags content)).headD [] =
      "[Tags: ".data ++ joinSep ", ".data tags := by
    rw [hsplit, splitChar_headD_append ']' _ _ hnobr]
  have hTno : ('T' : Char) ∉ ' ' :: joinSep ", ".data tags := by
    intro hm
    rcases List.mem_cons.mp hm with he | hm
    · exact absurd he (by decide)
    · exact not_mem_joinSep 'T' ", ".data (by decide) tags hT hm
  have hnoinfix : ¬ ("[Tags:".data <:+: ' ' :: joinSep ", ".data tags) := by
    intro hinf
    exact hTno (hinf.subset (by decide))
  have hrepl : replaceAll "[Tags:".data [] ("[Tags: ".data ++ joinSep ", ".data tags) =
      ' ' :: joinSep ", ".data tags := by
    have heq : "[Tags: ".data ++ joinSep ", ".data tags =
        "[Tags:".data ++ (' ' :: joinSep ", ".data tags) := by
      rw [hAB, List.append_assoc]
      rfl
    rw [heq, replaceAll_prefix "[Tags:".data [] _ (by decide),
      replaceAll_not_infix "[Tags:".data [] _ hnoinfix]
    rfl
  have hsplit2 : splitChar ',' (' ' :: joinSep ", ".data tags) =
      tags.map (fun t => ' ' :: t) :=
    splitChar_comma_join tags hne hcomma
  have hmapstrip : (tags.map (fun t => ' ' :: t)).map (fun t => pyLowerCore (pyStripCore t)) =
      tags := by
    rw [List.map_map]
    have hpt : ∀ t ∈ tags,
        ((fun t => pyLowerCore (pyStripCore t)) ∘ (fun t => ' ' :: t)) t = (fun a => a) t := by
      intro t ht
      show pyLowerCore (pyStripCore (' ' :: t)) = t
      rw [pyStripCore_cons_space, hstrip t ht, hlow t ht]
    rw [List.map_congr_left hpt, List.map_id' tags]
  unfold parseCore
  rw [if_pos hinfix, hhead, hrepl, hsplit2, hmapstrip]

/-- Claim C6 counterexample: the tag `"a]b"` is non-empty, lowercase and
comma-free, yet parsing the formatted content recovers `["a"]`, not
`["a]b"]` — the first `"]"` of the tag is taken as the end of the tag
block. -/
theorem claim_C6_counterexample :
    (("a]b" : String) ≠ "" ∧ (',' : Char) ∉ "a]b".data ∧
      pyLowerCore "a]b".data = "a]b".data) ∧
    parse_memory_tags (format_memory_content ⟨OpKind.NEW, none, some "c", ["a]b"]⟩) = ["a"] ∧
    (["a"] : List String) ≠ ["a]b"] :=
  ⟨by decide, by decide, by decide⟩

/-- Claim C6 (amended): the concrete round trip of the spec holds; in
general, for an operation with a non-empty tag list whose tags are non-empty,
lowercase-fixed, comma-free, contain no `"]"` and carry no leading/trailing
whitespace, parsing the formatted content recovers exactly the tag list; an
operation with empty tags is formatted as its bare content with no prefix. -/
theorem claim_C6 :
    (format_memory_content ⟨OpKind.NEW, none, some "User prefers oat milk", ["food", "coffee"]⟩ =
        "[Tags: food, coffee] User prefers oat milk" ∧
      parse_memory_tags "[Tags: food, coffee] User prefers oat milk" = ["food", "coffee"]) ∧
    (∀ op : MemoryOperation, op.tags ≠ [] →
      (∀ t ∈ op.tags, t ≠ "" ∧ (',' : Char) ∉ t.data ∧ (']' : Char) ∉ t.data ∧
        pyLowerCore t.data = t.data ∧ pyStripCore t.data = t.data) →
      parse_memory_tags (format_memory_content op) = op.tags) ∧
    (∀ op : MemoryOperation, op.tags = [] → format_memory_content op = op.content.getD "") := by
  refine ⟨⟨by decide, by decide⟩, fun op hne hcond => ?_,
    fun op h => by simp [format_memory_content, h]⟩
  unfold format_memory_content
  rw [if_neg hne]
  unfold parse_memory_tags
  have hmapne : op.tags.map String.data ≠ [] := by
    simpa using hne
  have hround := parseCore_fmtCore (op.tags.map String.data) (pyStrOfOptStr op.content).data
    hmapne
    (by
      intro td htd
      rcases List.mem_map.mp htd with ⟨t, ht, rfl⟩
      exact (hcond t ht).2.1)
    (by
      intro td htd
      rcases List.mem_map.mp htd with ⟨t, ht, rfl⟩
      exact (hcond t ht).2.2.1)
    (by
      intro td htd
      rcases List.mem_map.mp htd with ⟨t, ht, rfl⟩
      exact (hcond t ht).2.2.2.1)
    (by
      intro td htd
      rcases List.mem_map.mp htd with ⟨t, ht, rfl⟩
      exact (hcond t ht).2.2.2.2)
  have hdata : (String.mk (fmtCore (op.tags.map String.data)
      (pyStrOfOptStr op.content).data)).data =
      fmtCore (op.tags.map String.data) (pyStrOfOptStr op.content).data := rfl
  rw [hdata, hround, List.map_map]
  have hpt : ∀ t ∈ op.tags, (String.mk ∘ String.data) t = (fun a => a) t := by
    intro t _
    show String.mk t.data = t
    cases t
    rfl
  rw [List.map_congr_left hpt, List.map_id' op.tags]

/-- Claim C6 witness: instantiates the general round trip at the spec's
concrete tags and the empty-tags case at a bare content. -/
theorem claim_C6_witness :
    parse_memory_tags (format_memory_content
      ⟨OpKind.NEW, none, some "User prefers oat milk", ["food", "coffee"]⟩) =
      ["food", "coffee"] ∧
    format_memory_content ⟨OpKind.NEW, none, some "bare", []⟩ =
      (some "bare" : Option String).getD "" :=
  ⟨claim_C6.2.1 ⟨OpKind.NEW, none, some "User prefers oat milk", ["food", "coffee"]⟩
      (by decide) (by decide),
   claim_C6.2.2 ⟨OpKind.NEW, none, some "bare", []⟩ rfl⟩

/-- Ranked retrieval with an empty relevant-tag set selects nothing: every
score is zero, and only strictly positive scores are kept. -/
theorem ranked_nil_tags (mems : List String) (n : Nat) :
    get_relevant_memories_ranked mems [] n = [] := by
  unfold get_relevant_memories_ranked
  dsimp only
  have hfilter : (List.insertionSort memOrder
      (mems.map (fun c => (c, memory_score c [])))).filter (fun x => decide (0 < x.2)) = [] := by
    apply List.filter_eq_nil_iff.mpr
    intro p hp
    have hmem := (List.perm_insertionSort memOrder _).subset hp
    rcases List.mem_map.mp hmem with ⟨c, _, rfl⟩
    have hz : memory_score c [] = 0 := by simp [memory_score]
    simp [hz]
  rw [hfilter]
  simp

/-- Extraction returns nothing when the completion call raises. -/
theorem identify_memories_error (modelName : String) (ex : List String) :
    identify_memories modelName ex (Except.error ()) = [] := by
  by_cases hm : modelName = "" <;> simp [identify_memories, hm]

/-- Claim C8: the pre-request hook returns its input unchanged on a falsy or
non-dict body, a missing user identity, a missing or empty message list, or a
message list without user-authored messages; a raising user lookup is caught
and returns the body unchanged; and when the completion endpoint raises for
both internal calls the body also comes back unchanged — the hook (a total
function here) never raises. -/
theorem claim_C8 (v : Valves) (api : StorageApi) (env : Env) (b : Body) (uid : String)
    (st : Store) (msgs : List Msg) :
    (∀ ud, inlet v api env none ud st = (none, none, st)) ∧
    inlet v api env (some b) none st = (some b, none, st) ∧
    (b.messages = none → inlet v api env (some b) (some uid) st = (some b, none, st)) ∧
    (b.messages = some [] → inlet v api env (some b) (some uid) st = (some b, none, st)) ∧
    (b.messages = some msgs → (msgs.filter (fun m => m.role == "user")).isEmpty = true →
      inlet v api env (some b) (some uid) st = (some b, none, st)) ∧
    (env.lookupUser = Except.error () →
      inlet v api env (some b) (some uid) st = (some b, none, st)) ∧
    (env.tagCall = Except.error () → env.extractCall = Except.error () →
      inlet v api env (some b) (some uid) st = (some b, none, st)) := by
  refine ⟨fun ud => rfl, rfl, fun h => ?_, fun h => ?_, fun h h2 => ?_, fun h => ?_,
    fun ht he => ?_⟩
  · simp [inlet, h]
  · simp [inlet, h]
  · by_cases h1 : msgs.isEmpty <;> simp [inlet, h, h1, h2]
  · cases hbm : b.messages with
    | none => simp [inlet, hbm]
    | some msgs' =>
      by_cases h1 : msgs'.isEmpty
      · simp [inlet, hbm, h1]
      · by_cases h2 : (msgs'.filter (fun m => m.role == "user")).isEmpty
        · simp [inlet, hbm, h1, h2]
        · simp [inlet, hbm, h1, h2, h]
  · have hpum : ∀ user, process_user_message v api env user st = (("", []), st, none) := by
      intro user
      have hrel : get_relevant_memories v env user st = [] := by
        cases user with
        | none => rfl
        | some uid' =>
          unfold get_relevant_memories
          by_cases hat : (get_all_memory_tags uid' st).isEmpty
          · simp [hat]
          · simp [hat, get_relevant_tags_for_query, ht, ranked_nil_tags]
      unfold process_user_message
      dsimp only
      rw [hrel, he, identify_memories_error]
      rfl
    cases hbm : b.messages with
    | none => simp [inlet, hbm]
    | some msgs' =>
      by_cases h1 : msgs'.isEmpty
      · simp [inlet, hbm, h1]
      · by_cases h2 : (msgs'.filter (fun m => m.role == "user")).isEmpty
        · simp [inlet, hbm, h1, h2]
        · cases hlu : env.lookupUser with
          | error e => simp [inlet, hbm, h1, h2, hlu]
          | ok user =>
            simp [inlet, hbm, h1, h2, hlu, hpum user, update_message_context]

/-- Claim C8 witness: instantiates the raising-user-lookup case at a concrete
body with one user message. -/
theorem claim_C8_witness :
    inlet ⟨"gpt-3.5-turbo", 10, true⟩ hostApi
      ⟨Except.error (), Except.ok none, Except.ok none⟩
      (some ⟨some [⟨"user", "hi"⟩]⟩) (some "u") ⟨[], 0⟩ =
      (some ⟨some [⟨"user", "hi"⟩]⟩, none, ⟨[], 0⟩) :=
  (claim_C8 ⟨"gpt-3.5-turbo", 10, true⟩ hostApi
    ⟨Except.error (), Except.ok none, Except.ok none⟩
    ⟨some [⟨"user", "hi"⟩]⟩ "u" ⟨[], 0⟩ [⟨"user", "hi"⟩]).2.2.2.2.2.1 rfl

/-- Shape of an operation accepted by the dict-level validator: an object
whose `operation` value is one of the three known strings, with a `content`
key present whenever the kind is NEW or UPDATE. -/
theorem validate_shape (op : JValue) (h : validate_memory_operation op = true) :
    ∃ fs v, op = JValue.obj fs ∧ fs.lookup "operation" = some (JValue.str v) ∧
      (v = "NEW" ∨ v = "UPDATE" ∨ v = "DELETE") ∧
      ((v = "NEW" ∨ v = "UPDATE") → ∃ c, fs.lookup "content" = some c) := by
  cases op with
  | obj fs =>
    unfold validate_memory_operation at h
    dsimp only at h
    rcases hop : fs.lookup "operation" with _ | jv <;> rw [hop] at h
    · simp at h
    · cases jv with
      | str v =>
        dsimp only at h
        split_ifs at h with h1 h2 h3
        refine ⟨fs, v, rfl, hop, h1, fun hv => ?_⟩
        rcases hc : fs.lookup "content" with _ | c
        · exact absurd ⟨hv, by rw [hc]; rfl⟩ h3
        · exact ⟨c, rfl⟩
      | null => simp at h
      | bool bb => simp at h
      | num nn => simp at h
      | arr xs => simp at h
      | obj fs' => simp at h
  | null => simp [validate_memory_operation] at h
  | bool bb => simp [validate_memory_operation] at h
  | num nn => simp [validate_memory_operation] at h
  | str s => simp [validate_memory_operation] at h
  | arr xs => simp [validate_memory_operation] at h

/-- Confirmation building never raises on validated operations, and computes
the header plus one line per NEW/UPDATE operation. -/
theorem build_confirmation_go_ok :
    ∀ (ops : List JValue), (∀ op ∈ ops, validate_memory_operation op = true) →
      ∀ acc, build_confirmation_go acc ops =
        Except.ok (acc ++ joinStrings (ops.map confirmation_line)) := by
  intro ops
  induction ops with
  | nil => intro _ acc; simp [build_confirmation_go, joinStrings]
  | cons op rest ih =>
    intro hval acc
    have hrest : ∀ o ∈ rest, validate_memory_operation o = true :=
      fun o ho => hval o (List.mem_cons_of_mem _ ho)
    obtain ⟨fs, v, heq, hlook, hv3, hcont⟩ := validate_shape op (hval op (by simp))
    subst heq
    unfold build_confirmation_go
    dsimp only
    rw [hlook]
    dsimp only
    by_cases hnu : v = "NEW" ∨ v = "UPDATE"
    · obtain ⟨c, hc⟩ := hcont hnu
      rw [if_pos hnu, hc]
      dsimp only
      rw [ih hrest (acc ++ "- " ++ pyFormatValue c ++ "\n")]
      have hline : confirmation_line (JValue.obj fs) = "- " ++ pyFormatValue c ++ "\n" := by
        unfold confirmation_line
        dsimp only
        rw [hlook]
        dsimp only
        rw [if_pos hnu, hc]
      rw [List.map_cons, hline]
      simp [joinStrings, String.append_assoc]
    · rw [if_neg hnu, ih hrest acc]
      have hline : confirmation_line (JValue.obj fs) = "" := by
        unfold confirmation_line
        dsimp only
        rw [hlook]
        dsimp only
        rw [if_neg hnu]
      rw [List.map_cons, hline]
      simp [joinStrings, String.append_assoc]

/-- Claim C9 counterexample: the pre-request hook stores operations even
when the filter is disabled (it never reads `enabled`), and on such a call
the post-response hook appends no message at all and leaves the stored
operations in place â rather than appending exactly one assistant message
and clearing the field, as the claim states for every call with stored
operations. -/
theorem claim_C9_counterexample :
    (inlet ⟨"gpt-3.5-turbo", 10, false⟩ hostApi
      ⟨Except.ok (some "u"), Except.ok none,
       Except.ok (some (JValue.arr [JValue.obj [("operation", JValue.str "NEW"),
         ("content", JValue.str "likes tea")]]))⟩
      (some ⟨some [⟨"user", "hi"⟩]⟩) (some "u") ⟨[], 0⟩).2.1 =
      some [JValue.obj [("operation", JValue.str "NEW"),
        ("content", JValue.str "likes tea")]] ∧
    outlet ⟨"gpt-3.5-turbo", 10, false⟩
      (some [JValue.obj [("operation", JValue.str "NEW"), ("content", JValue.str "likes tea")]])
      ⟨some []⟩ =
      (⟨some []⟩,
       some [JValue.obj [("operation", JValue.str "NEW"),
         ("content", JValue.str "likes tea")]]) :=
  ⟨rfl, rfl⟩

/-- Claim C9 (amended): when the filter is enabled (the default) and
operations were stored, the outlet appends exactly one assistant message
whose text is the header plus a `- content` line for each NEW and UPDATE
operation (DELETEs contribute nothing), then clears the stored operations,
so the immediately following outlet call changes nothing; when the filter is
disabled the outlet appends nothing and keeps the stored operations; with no
stored operations the body is returned unchanged. -/
theorem claim_C9 (v : Valves) (op0 : JValue) (ops : List JValue) (b b' : Body)
    (msgs : List Msg) :
    (v.enabled = true → b.messages = some msgs →
      (∀ op ∈ op0 :: ops, validate_memory_operation op = true) →
      outlet v (some (op0 :: ops)) b =
        (⟨some (msgs ++ [⟨"assistant",
          "I\x27ve stored the following information in my memory:\n" ++
            joinStrings ((op0 :: ops).map confirmation_line)⟩])⟩, none)) ∧
    (v.enabled = false →
      outlet v (some (op0 :: ops)) b = (b, some (op0 :: ops))) ∧
    outlet v none b' = (b', none) := by
  refine ⟨fun hen hbm hval => ?_, fun hdis => ?_, ?_⟩
  · unfold outlet
    rw [hen, if_pos rfl, hbm]
    dsimp only
    rw [show build_confirmation (op0 :: ops) =
        Except.ok ("I\x27ve stored the following information in my memory:\n" ++
          joinStrings ((op0 :: ops).map confirmation_line)) from
      build_confirmation_go_ok (op0 :: ops) hval _]
  · simp [outlet, hdis]
  · unfold outlet
    cases v.enabled <;> rfl

/-- Claim C9 witness: a stored NEW and a stored DELETE with the filter
enabled; the appended confirmation lists only the NEW content, the second
call is the identity, and the same stored operations under a disabled filter
are kept untouched. -/
theorem claim_C9_witness :
    outlet ⟨"gpt-3.5-turbo", 10, true⟩
      (some [JValue.obj [("operation", JValue.str "NEW"), ("content", JValue.str "likes tea")],
             JValue.obj [("operation", JValue.str "DELETE"), ("id", JValue.str "1")]])
      ⟨some []⟩ =
      (⟨some [⟨"assistant",
        "I\x27ve stored the following information in my memory:\n" ++
          joinStrings ([JValue.obj [("operation", JValue.str "NEW"),
              ("content", JValue.str "likes tea")],
            JValue.obj [("operation", JValue.str "DELETE"),
              ("id", JValue.str "1")]].map confirmation_line)⟩]⟩, none) ∧
    outlet ⟨"gpt-3.5-turbo", 10, false⟩
      (some [JValue.obj [("operation", JValue.str "NEW"), ("content", JValue.str "likes tea")],
             JValue.obj [("operation", JValue.str "DELETE"), ("id", JValue.str "1")]])
      ⟨some []⟩ =
      (⟨some []⟩,
       some [JValue.obj [("operation", JValue.str "NEW"), ("content", JValue.str "likes tea")],
             JValue.obj [("operation", JValue.str "DELETE"), ("id", JValue.str "1")]]) ∧
    outlet ⟨"gpt-3.5-turbo", 10, true⟩ none ⟨some []⟩ = (⟨some []⟩, none) :=
  ⟨by
    have h := (claim_C9 ⟨"gpt-3.5-turbo", 10, true⟩
      (JValue.obj [("operation", JValue.str "NEW"), ("content", JValue.str "likes tea")])
      [JValue.obj [("operation", JValue.str "DELETE"), ("id", JValue.str "1")]]
      ⟨some []⟩ ⟨some []⟩ []).1 rfl rfl (by decide)
    simpa using h,
   (claim_C9 ⟨"gpt-3.5-turbo", 10, false⟩
      (JValue.obj [("operation", JValue.str "NEW"), ("content", JValue.str "likes tea")])
      [JValue.obj [("operation", JValue.str "DELETE"), ("id", JValue.str "1")]]
      ⟨some []⟩ ⟨some []⟩ []).2.1 rfl,
   (claim_C9 ⟨"gpt-3.5-turbo", 10, true⟩ JValue.null [] ⟨some []⟩ ⟨some []⟩ []).2.2⟩

/-- Claim C10: the pre-request hook never reads `valves.enabled` — two runs
differing only in that flag produce identical bodies, stored operations and
storage states — while disabling the filter suppresses the outlet entirely,
returning the body and stored operations untouched. -/
theorem claim_C10 (m : String) (n : Nat) (e₁ e₂ : Bool) (api : StorageApi) (env : Env)
    (body : Option Body) (userDict : Option String) (st : Store)
    (stored : Option (List JValue)) (b : Body) :
    inlet ⟨m, n, e₁⟩ api env body userDict st = inlet ⟨m, n, e₂⟩ api env body userDict st ∧
    outlet ⟨m, n, false⟩ stored b = (b, stored) :=
  ⟨rfl, rfl⟩
